import Mathlib

/-!
Verification development for the RAGJira repository.

The text-processing core of the repository is embedded here as executable
Lean definitions:

* `rewrite_text` models `rewrite_text` from `step5_rewrite_tickets.py`
  (the spec's Text Normalizer): newline replacement, markdown-link
  stripping, HTML-tag stripping, symbol-run replacement, heading-label
  rewriting, boilerplate removal, whitespace collapse and trim.
* `_clean_text`, `build_context` and `fallback_context` model the
  functions of the same names from `step4_generate_insights.py`
  (the spec's Context Assembler).
* `rewrite_dataframe` models `rewrite_dataframe` from
  `step5_rewrite_tickets.py` over an explicit dataframe model.

Python regular expressions are modelled as deterministic character
scanners over `List Char` (the patterns involved use only single-char
complement classes, so the regex engine never needs to backtrack, except
across alternatives of the boilerplate alternations, which are tried in
order exactly as `re` does).  Python `str` is modelled by `String`;
`None`/`NaN` cell values by `Option String`.
-/

namespace RagJira

/-! ### Character classes (ASCII semantics of the Python regexes) -/

/-- Python `\s` (ASCII range), used by `re.sub(r"\s{2,}", " ", ...)` and `str.strip()`. -/
def isWsChar (c : Char) : Bool :=
  c == ' ' || c == '\t' || c == '\n' || c == '\r' || c == '\x0b' || c == '\x0c'

/-- Python `[A-Za-z]`. -/
def isAsciiAlpha (c : Char) : Bool :=
  decide (65 ≤ c.toNat ∧ c.toNat ≤ 90) || decide (97 ≤ c.toNat ∧ c.toNat ≤ 122)

/-- Python `\d` (ASCII range). -/
def isAsciiDigit (c : Char) : Bool :=
  decide (48 ≤ c.toNat ∧ c.toNat ≤ 57)

/-- Python `\w` (ASCII range): letters, digits, underscore. -/
def isWordChar (c : Char) : Bool :=
  isAsciiAlpha c || isAsciiDigit c || c == '_'

/-- ASCII lower-casing, used to model the `re.IGNORECASE` flag. -/
def asciiLower (c : Char) : Char :=
  if 65 ≤ c.toNat ∧ c.toNat ≤ 90 then Char.ofNat (c.toNat + 32) else c

/-- The character class of `re.sub(r"[*•#_\-]+", " ", ...)`. -/
def isSymChar (c : Char) : Bool :=
  c == '*' || c == '•' || c == '#' || c == '_' || c == '-'

/-! ### Python `str.replace` (all non-overlapping occurrences, left to right) -/

/-- Boolean prefix test on character lists (counterpart of `l₁ <+: l₂`). -/
def lpre : List Char → List Char → Bool
  | [], _ => true
  | _ :: _, [] => false
  | a :: as, b :: bs => a == b && lpre as bs

/-- Fuelled worker for `replaceAllL`; with fuel at least the length of the
input it performs Python's `str.replace`: scan left to right, replace each
non-overlapping occurrence of the needle, and continue after it. -/
def replGo (needle repl : List Char) : Nat → List Char → List Char
  | _, [] => []
  | 0, s => s
  | fuel + 1, c :: cs =>
    if lpre needle (c :: cs) then
      repl ++ replGo needle repl fuel (List.drop needle.length (c :: cs))
    else
      c :: replGo needle repl fuel cs

/-- Python `s.replace(needle, repl)` for a non-empty needle (the embedding
returns the input unchanged on an empty needle, which never occurs in the
source). -/
def replaceAllL (needle repl s : List Char) : List Char :=
  if needle.isEmpty then s else replGo needle repl s.length s

/-! ### The individual regex substitutions -/

/-- State machine for `re.sub(r"[*•#_\-]+", " ", ...)`: every maximal run of
symbol characters becomes a single space.  `inRun` records whether the
previous character belonged to a symbol run. -/
def symGo : Bool → List Char → List Char
  | _, [] => []
  | inRun, c :: cs =>
    if isSymChar c then
      if inRun then symGo true cs else ' ' :: symGo true cs
    else
      c :: symGo false cs

/-- State machine for `re.sub(r"\s{2,}", " ", ...)`: every maximal run of two
or more whitespace characters becomes a single space; a lone whitespace
character is kept as-is.  `pending` holds a single whitespace character not
yet emitted; `inRun` is set once a run of length at least two is seen. -/
def colGo : Option Char → Bool → List Char → List Char
  | none, false, [] => []
  | some w, false, [] => [w]
  | _, true, [] => [' ']
  | none, false, c :: cs =>
    if isWsChar c then colGo (some c) false cs else c :: colGo none false cs
  | some w, false, c :: cs =>
    if isWsChar c then colGo none true cs else w :: c :: colGo none false cs
  | _, true, c :: cs =>
    if isWsChar c then colGo none true cs else ' ' :: c :: colGo none false cs

/-- `re.sub(r"\s{2,}", " ", ...)` on a character list. -/
def collapseWsL (l : List Char) : List Char :=
  colGo none false l

/-- Python `str.strip()` on a character list. -/
def stripL (l : List Char) : List Char :=
  ((l.dropWhile isWsChar).reverse.dropWhile isWsChar).reverse

/-- Scanner for `re.sub(r"\[(?P<label>[^\]]+)\]\([^\)]+\)", r"\g<label>", ...)`:
markdown links `[label](url)` are replaced by their label.  Fuelled; the fuel
is initialised to the input length and decreases by one per step while the
input shrinks by at least one character. -/
def mdGo : Nat → List Char → List Char
  | _, [] => []
  | 0, s => s
  | fuel + 1, c :: cs =>
    if c == '[' then
      match cs.takeWhile (fun d => !(d == ']')), cs.dropWhile (fun d => !(d == ']')) with
      | lbl@(_ :: _), ']' :: '(' :: rest2 =>
        match rest2.takeWhile (fun d => !(d == ')')), rest2.dropWhile (fun d => !(d == ')')) with
        | _ :: _, ')' :: rest3 => lbl ++ mdGo fuel rest3
        | _, _ => c :: mdGo fuel cs
      | _, _ => c :: mdGo fuel cs
    else
      c :: mdGo fuel cs

/-- Scanner for `re.sub(r"<[^>]+>", " ", ...)`: HTML-like tags become a
single space. -/
def htmlGo : Nat → List Char → List Char
  | _, [] => []
  | 0, s => s
  | fuel + 1, c :: cs =>
    if c == '<' then
      match cs.takeWhile (fun d => !(d == '>')), cs.dropWhile (fun d => !(d == '>')) with
      | _ :: _, '>' :: rest => ' ' :: htmlGo fuel rest
      | _, _ => c :: htmlGo fuel cs
    else
      c :: htmlGo fuel cs

/-- Case-insensitive prefix match returning the remainder on success. -/
def ciPrefRem : List Char → List Char → Option (List Char)
  | [], s => some s
  | _ :: _, [] => none
  | a :: as, c :: cs =>
    if asciiLower a == asciiLower c then ciPrefRem as cs else none

/-- Attempt one alternative of a boilerplate alternation at the current
position: a case-insensitive match of `alt`, then (for the greeting regex,
`needB = true`) the trailing `\b`, then the greedy `[^.]*`.  Returns the
matched span and the rest of the input. -/
def bpAlt (needB : Bool) (s alt : List Char) : Option (List Char × List Char) :=
  match ciPrefRem alt s with
  | none => none
  | some rem =>
    if needB && (match rem.head? with | some c => isWordChar c | none => false) then
      none
    else
      some (alt ++ rem.takeWhile (fun c => !(c == '.')), rem.dropWhile (fun c => !(c == '.')))

/-- Scanner for `re.sub` with a pattern of the shape
`\b(alt₁|alt₂|…)\b[^.]*` (when `needB = true`, the greeting regex) or
`(alt₁|alt₂|…)[^.]*` (when `needB = false`), case-insensitively, replacing
matches by the empty string.  `prev` is the character just before the current
position in the original string, used for the leading `\b` (all alternatives
start with a letter, so the boundary holds exactly when `prev` is absent or a
non-word character). -/
def bpGo (alts : List (List Char)) (needB : Bool) : Nat → Option Char → List Char → List Char
  | _, _, [] => []
  | 0, _, s => s
  | fuel + 1, prev, c :: cs =>
    if needB && (match prev with | some p => isWordChar p | none => false) then
      c :: bpGo alts needB fuel (some c) cs
    else
      match alts.findSome? (bpAlt needB (c :: cs)) with
      | some (m, rest) => bpGo alts needB fuel m.getLast? rest
      | none => c :: bpGo alts needB fuel (some c) cs

/-- Run a boilerplate substitution over a whole character list. -/
def bpSub (alts : List (List Char)) (needB : Bool) (l : List Char) : List Char :=
  bpGo alts needB l.length none l

/-- Alternatives of
`r"\b(hello|hi|dear team|good (morning|afternoon)|thanks|thank you)\b[^.]*"`,
in the order the regex engine tries them. -/
def greetingAlts : List (List Char) :=
  ["hello".data, "hi".data, "dear team".data, "good morning".data,
   "good afternoon".data, "thanks".data, "thank you".data]

/-- Alternatives of
`r"(please provide|let me know if|do not hesitate|kind regards)[^.]*"`,
in the order the regex engine tries them. -/
def boilerplateAlts : List (List Char) :=
  ["please provide".data, "let me know if".data, "do not hesitate".data,
   "kind regards".data]

/-! ### The Text Normalizer (`rewrite_text`, step5_rewrite_tickets.py) -/

/-- The `replacements` dict of `rewrite_text`, in insertion (= iteration)
order. -/
def headingReplacements : List (String × String) :=
  [("Issue:", "The issue is"),
   ("Problem:", "The problem is"),
   ("Proposed Resolution:", "The proposed resolution is"),
   ("Resolution:", "The resolution is"),
   ("Status:", "Current status:"),
   ("Summary:", "Summary:")]

/-- The heading-replacement loop of `rewrite_text`: successive
`value.replace(needle, replacement)` calls in dict order. -/
def applyReplacementsL (l : List Char) : List Char :=
  headingReplacements.foldl (fun acc p => replaceAllL p.1.data p.2.data acc) l

/-- Step 2 of `rewrite_text`: `value.replace("\n", " ")`. -/
def newlinesToSpaces (s : String) : String :=
  ⟨s.data.map (fun c => if c == '\n' then ' ' else c)⟩

/-- Step 3 of `rewrite_text`: strip markdown links. -/
def stripMarkdownLinks (s : String) : String :=
  ⟨mdGo s.data.length s.data⟩

/-- Step 4 of `rewrite_text`: strip HTML-like tags. -/
def stripHtmlTags (s : String) : String :=
  ⟨htmlGo s.data.length s.data⟩

/-- Step 5 of `rewrite_text`: replace symbol runs by a space. -/
def replaceSymbolRuns (s : String) : String :=
  ⟨symGo false s.data⟩

/-- Step 6 of `rewrite_text`: heading-label rewriting. -/
def applyHeadingReplacements (s : String) : String :=
  ⟨applyReplacementsL s.data⟩

/-- Step 7a of `rewrite_text`: remove greetings (`\b(hello|hi|…)\b[^.]*`). -/
def removeGreetings (s : String) : String :=
  ⟨bpSub greetingAlts true s.data⟩

/-- Step 7b of `rewrite_text`: remove support boilerplate
(`(please provide|…)[^.]*`). -/
def removeBoilerplate (s : String) : String :=
  ⟨bpSub boilerplateAlts false s.data⟩

/-- Step 8 of `rewrite_text`: `re.sub(r"\s{2,}", " ", value)` followed by
`value.strip()`. -/
def collapseAndStrip (s : String) : String :=
  ⟨stripL (collapseWsL s.data)⟩

/-- `rewrite_text` from `step5_rewrite_tickets.py`.  A `none` argument models
the Python `None` input (`value = "" if text is None else str(text)`); the
return type `String` witnesses that the result is always a string. -/
def rewrite_text : Option String → String
  | none => ""
  | some s =>
    collapseAndStrip (removeBoilerplate (removeGreetings (applyHeadingReplacements
      (replaceSymbolRuns (stripHtmlTags (stripMarkdownLinks (newlinesToSpaces s)))))))

/-! ### The Context Assembler (step4_generate_insights.py) -/

/-- `_clean_text` from `step4_generate_insights.py`:
`re.sub(r"[*•#_\-]+", " ", text)` then `re.sub(r"\s{2,}", " ", text).strip()`. -/
def _clean_text (text : String) : String :=
  ⟨stripL (collapseWsL (symGo false text.data))⟩

/-- A pandas cell: `none` models `NaN`, `some s` a string value. -/
abbrev Cell := Option String

/-- A dataframe row, as the finite map from column names to cells. -/
abbrev Row := List (String × Cell)

/-- The slice of a pandas `DataFrame` that `build_context` and
`rewrite_dataframe` depend on: the column list and the rows in order. -/
structure PDataFrame where
  cols : List String
  rows : List Row

/-- `row[col]` for a row known to carry `col`; absent keys behave as `NaN`
(the source only reads columns present in the frame). -/
def rowGet : Row → String → Cell
  | [], _ => none
  | (k, v) :: t, c => if k = c then v else rowGet t c

/-- The per-column test of the generator expression in `build_context`:
`col in df.columns and pd.notna(row[col]) and str(row[col]).strip()`. -/
def cellSelectable (df : PDataFrame) (row : Row) (c : String) : Bool :=
  decide (c ∈ df.cols) &&
    (match rowGet row c with
     | none => false
     | some s => !(stripL s.data).isEmpty)

/-- The `next(... , "")` text selection of `build_context`: the value of the
first available column whose cell is non-null with non-blank text, else `""`. -/
def selectText (df : PDataFrame) (cols : List String) (row : Row) : String :=
  match cols.find? (cellSelectable df row) with
  | some c => (rowGet row c).getD ""
  | none => ""

/-- `df.iloc[i]` for an integer position: non-negative positions index from
the front, negative positions from the back, anything else raises
(`none`). -/
def ilocGet (rows : List Row) (i : Int) : Option Row :=
  if 0 ≤ i then rows.get? i.toNat
  else if 0 ≤ (rows.length : Int) + i then rows.get? ((rows.length : Int) + i).toNat
  else none

/-- `len(re.findall(r"[A-Za-z]", text))`. -/
def countAlpha (s : String) : Nat :=
  s.data.countP (fun c => isAsciiAlpha c)

/-- `re.fullmatch(r"[\d\W_]+", text)` as a Boolean: the text is non-empty and
every character is a digit, a non-word character, or an underscore. -/
def fullmatchNonAlpha (s : String) : Bool :=
  !s.data.isEmpty && s.data.all (fun c => isAsciiDigit c || !isWordChar c || c == '_')

/-- The three `continue` filters of `build_context` applied to the cleaned
text: `not text`, the `[\d\W_]+` full match, and the alphabetic-count
threshold. -/
def rejectText (min_alpha_chars : Nat) (t : String) : Bool :=
  t.data.isEmpty || fullmatchNonAlpha t || decide (countAlpha t < min_alpha_chars)

/-- The loop body of `build_context` over the retrieval indices, building the
accepted texts and contributing indices in order.  A `none` result models a
raised exception (only possible for an index below `-len(df)`, where
`df.iloc` raises `IndexError`). -/
def buildGo (df : PDataFrame) (cols : List String) (min_alpha_chars : Nat) :
    List Int → Option (List String × List Int)
  | [] => some ([], [])
  | i :: rest =>
    if i = -1 ∨ (df.rows.length : Int) ≤ i then buildGo df cols min_alpha_chars rest
    else
      match ilocGet df.rows i with
      | none => none
      | some row =>
        match buildGo df cols min_alpha_chars rest with
        | none => none
        | some (ps, vs) =>
          if rejectText min_alpha_chars (_clean_text (selectText df cols row)) then
            some (ps, vs)
          else
            some (_clean_text (selectText df cols row) :: ps, i :: vs)

/-- `build_context` from `step4_generate_insights.py`: the retrieved indices
(`bundle.indices[0]`) are filtered and their selected, cleaned texts joined
with single spaces; the contributing indices are returned alongside. -/
def build_context (df : PDataFrame) (indices : List Int) (min_alpha_chars : Nat)
    (available_columns : List String) : Option (String × List Int) :=
  (buildGo df available_columns min_alpha_chars indices).map
    (fun pv => (String.intercalate " " pv.1, pv.2))

/-- Specification-side view of one candidate of `build_context`: the cleaned
text this retrieval index contributes, or `none` when the index is skipped
(sentinel `-1` / beyond the table) or its cleaned text is rejected by the
filters. -/
def acceptedTextAt (df : PDataFrame) (cols : List String) (min_alpha_chars : Nat)
    (i : Int) : Option String :=
  if i = -1 ∨ (df.rows.length : Int) ≤ i then none
  else
    match ilocGet df.rows i with
    | none => none
    | some row =>
      if rejectText min_alpha_chars (_clean_text (selectText df cols row)) then none
      else some (_clean_text (selectText df cols row))

/-- Specification-side guard: the retrieval indices that the assembler's
skip test lets through. -/
def keptIndex (df : PDataFrame) (i : Int) : Bool :=
  decide (¬(i = -1 ∨ (df.rows.length : Int) ≤ i))

/-- The fixed generic sentence of `fallback_context`. -/
def fallbackSentence : String :=
  "Incident descriptions are brief or contain limited text. Assume these involve hardware faults, network issues, or vendor delays causing camera outages in retail stores."

/-- `fallback_context` from `step4_generate_insights.py`. -/
def fallback_context (context : String) (min_length : Int) : String :=
  if min_length ≤ ((⟨stripL context.data⟩ : String).length : Int) then context
  else fallbackSentence

/-! ### `rewrite_dataframe` (step5_rewrite_tickets.py) -/

/-- `rewrite_text` as pandas `Series.apply` sees each cell: a `NaN` cell is
the float `nan`, so `str(text)` yields `"nan"` (the `text is None` branch is
not taken); a string cell passes through unchanged. -/
def applyRewriteCell (c : Cell) : String :=
  rewrite_text (some (c.getD "nan"))

/-- The column `df[c]` as the list of its cells. -/
def getColumn (df : PDataFrame) (c : String) : List Cell :=
  df.rows.map (fun row => rowGet row c)

/-- Set (or append) the cell for column `c` in one row. -/
def setRowCell : Row → String → Cell → Row
  | [], c, v => [(c, v)]
  | (k, w) :: t, c, v =>
    if k = c then (c, v) :: t else (k, w) :: setRowCell t c v

/-- `df[c] = vals`: replace the column if present, else append it. -/
def setColumn (df : PDataFrame) (c : String) (vals : List Cell) : PDataFrame :=
  { cols := if c ∈ df.cols then df.cols else df.cols ++ [c]
    rows := df.rows.zipWith (fun row v => setRowCell row c v) vals }

/-- `rewrite_dataframe` from `step5_rewrite_tickets.py`: `none` models the
`ValueError` raised when the source column is absent; otherwise the rewritten
series is stored into the source column (`overwrite_source`) or into
`output_column`. -/
def rewrite_dataframe (df : PDataFrame) (source_column output_column : String)
    (overwrite_source : Bool) : Option PDataFrame :=
  if source_column ∈ df.cols then
    let rewritten := (getColumn df source_column).map (fun cell => some (applyRewriteCell cell))
    some (if overwrite_source then setColumn df source_column rewritten
          else setColumn df output_column rewritten)
  else none

/-! ### Concrete reference tables used in witnesses and counterexamples -/

/-- Three-row reference table for the retrieval example of the spec:
row 0 holds valid text, row 2 holds `"N/A"`. -/
def exampleFrame : PDataFrame :=
  { cols := ["Cleaned_Text"]
    rows := [[("Cleaned_Text", some "Camera failure at store 12 due to power loss")],
             [("Cleaned_Text", some "irrelevant middle row text")],
             [("Cleaned_Text", some "N/A")]] }

/-- Two-row reference table used to probe the index guard. -/
def twoRowFrame : PDataFrame :=
  { cols := ["Cleaned_Text"]
    rows := [[("Cleaned_Text", some "first row text words")],
             [("Cleaned_Text", some "second row text words")]] }

/-- One-row reference table used to probe the index guard. -/
def oneRowFrame : PDataFrame :=
  { cols := ["Cleaned_Text"]
    rows := [[("Cleaned_Text", some "only row text words")]] }

/-- One-row table whose cleaned text has exactly five alphabetic
characters. -/
def fiveAlphaFrame : PDataFrame :=
  { cols := ["Cleaned_Text"]
    rows := [[("Cleaned_Text", some "ab cd e 12 34!")]] }

/-- One-row table whose selected text is purely numeric. -/
def numericFrame : PDataFrame :=
  { cols := ["Cleaned_Text"]
    rows := [[("Cleaned_Text", some "12345")]] }

/-- Two-column, one-row table used for the `rewrite_dataframe` witness. -/
def rewriteFrame : PDataFrame :=
  { cols := ["Ticket Key", "Cleaned_Text"]
    rows := [[("Ticket Key", some "APT-1"), ("Cleaned_Text", some "Issue: camera down")]] }

/-! ## Lemmas -/

/-! ### Character-class facts -/

/-- The class `[\d\W_]` accepts exactly the non-letters: a character is a
digit, a non-word character, or an underscore iff it is not an ASCII
letter. -/
theorem nonAlpha_class_eq (c : Char) :
    (isAsciiDigit c || !isWordChar c || c == '_') = !isAsciiAlpha c := by
  by_cases ha : isAsciiAlpha c = true
  · have hd : isAsciiDigit c = false := by
      revert ha
      simp only [isAsciiAlpha, isAsciiDigit, Bool.or_eq_true, decide_eq_true_eq,
        Bool.eq_false_iff, ne_eq]
      intro h
      omega
    have hne : ¬ c = '_' := by
      intro h
      subst h
      simp [isAsciiAlpha] at ha
    have hu : (c == '_') = false := by
      simpa using hne
    simp [isWordChar, ha, hd, hu]
  · have ha' : isAsciiAlpha c = false := by simpa using ha
    simp only [isWordChar, ha', Bool.false_or, Bool.not_or]
    cases hd : isAsciiDigit c <;> cases hu : (c == '_') <;> simp

/-! ### `str.replace` facts (used for the longest-match-first claim) -/

theorem lpre_mem {n s : List Char} (h : lpre n s = true) {c : Char} (hc : c ∈ n) :
    c ∈ s := by
  induction n generalizing s with
  | nil => cases hc
  | cons a as ih =>
    cases s with
    | nil => simp [lpre] at h
    | cons b bs =>
      simp only [lpre, Bool.and_eq_true, beq_iff_eq] at h
      rcases List.mem_cons.mp hc with rfl | hc'
      · exact h.1 ▸ List.mem_cons_self _ _
      · exact List.mem_cons_of_mem _ (ih h.2 hc')

theorem lpre_append_self : ∀ n b : List Char, lpre n (n ++ b) = true
  | [], _ => rfl
  | a :: as, b => by simp [lpre, lpre_append_self as b]

theorem replGo_fuel {n : List Char} (r : List Char) (hn : n ≠ []) :
    ∀ f₁ f₂ s, s.length ≤ f₁ → s.length ≤ f₂ →
      replGo n r f₁ s = replGo n r f₂ s := by
  intro f₁
  induction f₁ with
  | zero =>
    intro f₂ s h1 _
    have : s = [] := List.length_eq_zero.mp (Nat.le_zero.mp h1)
    subst this
    simp [replGo]
  | succ g ih =>
    intro f₂ s h1 h2
    cases s with
    | nil => simp [replGo]
    | cons c cs =>
      have hlen : n.length ≥ 1 := by
        cases n with
        | nil => exact absurd rfl hn
        | cons _ _ => simp
      cases f₂ with
      | zero =>
        simp only [List.length_cons] at h2
        omega
      | succ h =>
        simp only [replGo]
        by_cases hp : lpre n (c :: cs) = true
        · rw [if_pos hp, if_pos hp]
          congr 1
          apply ih
          · simp only [List.length_drop, List.length_cons] at *
            omega
          · simp only [List.length_drop, List.length_cons] at *
            omega
        · rw [if_neg hp, if_neg hp]
          congr 1
          apply ih
          · simp only [List.length_cons] at h1; omega
          · simp only [List.length_cons] at h2; omega

theorem replaceAllL_cons_neg {n : List Char} (r : List Char) {c : Char} {cs : List Char}
    (h : lpre n (c :: cs) = false) :
    replaceAllL n r (c :: cs) = c :: replaceAllL n r cs := by
  have hn : n ≠ [] := by
    intro h'
    subst h'
    simp [lpre] at h
  have he : n.isEmpty = false := by
    cases n with
    | nil => exact absurd rfl hn
    | cons _ _ => rfl
  simp only [replaceAllL, he, Bool.false_eq_true, if_false, List.length_cons, replGo, h,
    if_false]

theorem replaceAllL_head_match {n : List Char} (r b : List Char) (hn : n ≠ []) :
    replaceAllL n r (n ++ b) = r ++ replaceAllL n r b := by
  have he : n.isEmpty = false := by
    cases n with
    | nil => exact absurd rfl hn
    | cons _ _ => rfl
  have hlen : n.length ≥ 1 := by
    cases n with
    | nil => exact absurd rfl hn
    | cons _ _ => simp
  obtain ⟨a, as, rfl⟩ : ∃ a as, n = a :: as := by
    cases n with
    | nil => exact absurd rfl hn
    | cons a as => exact ⟨a, as, rfl⟩
  simp only [replaceAllL, he, Bool.false_eq_true, if_false]
  have hshape : (a :: as) ++ b = a :: (as ++ b) := rfl
  rw [hshape]
  have hfuel : (a :: (as ++ b)).length = (as ++ b).length + 1 := by simp
  rw [hfuel]
  simp only [replGo, ← hshape, lpre_append_self (a :: as) b, if_true]
  congr 1
  rw [show List.drop (a :: as).length ((a :: as) ++ b) = b from List.drop_left _ _]
  apply replGo_fuel r hn
  · simp only [List.length_append, List.length_cons]
    omega
  · exact Nat.le_refl _

theorem replaceAllL_no_colon {n : List Char} (r : List Char) (hcol : ':' ∈ n) :
    ∀ {s : List Char}, (∀ c ∈ s, c ≠ ':') → replaceAllL n r s = s := by
  intro s
  induction s with
  | nil =>
    intro _
    by_cases h : n.isEmpty <;> simp [replaceAllL, h, replGo]
  | cons c cs ih =>
    intro hs
    have hnp : lpre n (c :: cs) = false := by
      by_contra h
      have h' : lpre n (c :: cs) = true := by
        cases hx : lpre n (c :: cs) with
        | false => exact absurd hx h
        | true => rfl
      exact hs ':' (lpre_mem h' hcol) rfl
    rw [replaceAllL_cons_neg r hnp, ih fun x hx => hs x (List.mem_cons_of_mem _ hx)]

theorem replaceAllL_walk {n : List Char} (r : List Char) {h0 : Char} {n' : List Char}
    (hn : n = h0 :: n') (hcol : ':' ∈ n) :
    ∀ (pre b : List Char), h0 ∉ pre → (∀ c ∈ b, c ≠ ':') →
      replaceAllL n r (pre ++ b) = pre ++ b := by
  intro pre
  induction pre with
  | nil =>
    intro b _ hb
    simpa using replaceAllL_no_colon r hcol hb
  | cons p ps ih =>
    intro b hnp hb
    have hne : h0 ≠ p := fun h => hnp (h ▸ List.mem_cons_self _ _)
    have hfalse : lpre n (p :: (ps ++ b)) = false := by
      subst hn
      simp only [lpre, Bool.and_eq_false_iff]
      left
      simpa using hne
    have : (p :: ps) ++ b = p :: (ps ++ b) := rfl
    rw [this, replaceAllL_cons_neg r hfalse,
      ih b (fun h => hnp (List.mem_cons_of_mem _ h)) hb]

/-- The heading-replacement fold, unfolded into its six successive
`str.replace` calls (dict iteration order). -/
theorem applyReplacementsL_eq (l : List Char) :
    applyReplacementsL l =
      replaceAllL "Summary:".data "Summary:".data
        (replaceAllL "Status:".data "Current status:".data
          (replaceAllL "Resolution:".data "The resolution is".data
            (replaceAllL "Proposed Resolution:".data "The proposed resolution is".data
              (replaceAllL "Problem:".data "The problem is".data
                (replaceAllL "Issue:".data "The issue is".data l))))) := rfl

/-- Running the whole heading-replacement loop on `"Proposed Resolution:"`
followed by any colon-free tail rewrites the long label (and only it): the
earlier needles `"Issue:"` and `"Problem:"` find no occurrence, the long
label is replaced before `"Resolution:"` is tried, and the later needles find
no colon left to match. -/
theorem applyReplacements_proposed (b : List Char) (hb : ∀ c ∈ b, c ≠ ':') :
    applyReplacementsL ("Proposed Resolution:".data ++ b) =
      "The proposed resolution is".data ++ b := by
  have hT : ∀ c ∈ "The proposed resolution is".data, c ≠ ':' := by decide
  have hTb : ∀ c ∈ "The proposed resolution is".data ++ b, c ≠ ':' := by
    intro c hc
    rcases List.mem_append.mp hc with h | h
    · exact hT c h
    · exact hb c h
  rw [applyReplacementsL_eq]
  rw [replaceAllL_walk "The issue is".data (rfl : "Issue:".data = 'I' :: "ssue:".data)
      (by decide) "Proposed Resolution:".data b (by decide) hb]
  rw [show "Proposed Resolution:".data ++ b = 'P' :: ("roposed Resolution:".data ++ b) from rfl]
  rw [replaceAllL_cons_neg "The problem is".data (by simp [lpre, List.cons_append])]
  rw [replaceAllL_walk "The problem is".data (rfl : "Problem:".data = 'P' :: "roblem:".data)
      (by decide) "roposed Resolution:".data b (by decide) hb]
  rw [show ('P' : Char) :: ("roposed Resolution:".data ++ b) =
      "Proposed Resolution:".data ++ b from rfl]
  rw [replaceAllL_head_match "The proposed resolution is".data b (by decide)]
  rw [replaceAllL_no_colon "The proposed resolution is".data (by decide) hb]
  rw [replaceAllL_no_colon "The resolution is".data (by decide) hTb]
  rw [replaceAllL_no_colon "Current status:".data (by decide) hTb]
  rw [replaceAllL_no_colon "Summary:".data (by decide) hTb]

/-! ### Whitespace collapsing: the collapsed output has no two adjacent
whitespace characters, hence collapsing and trimming is idempotent. -/

/-- Two characters that are not both whitespace. -/
def noWsPair (a b : Char) : Prop := ¬(isWsChar a = true ∧ isWsChar b = true)

theorem colGo_chain (l : List Char) :
    List.Chain' noWsPair (colGo none false l) ∧
      (∀ w, List.Chain' noWsPair (colGo (some w) false l)) ∧
      List.Chain' noWsPair (colGo none true l) := by
  induction l with
  | nil =>
    exact ⟨by simp [colGo], fun w => by simp [colGo], by simp [colGo]⟩
  | cons c cs ih =>
    obtain ⟨ih1, ih2, ih3⟩ := ih
    refine ⟨?_, ?_, ?_⟩
    · simp only [colGo]
      by_cases h : isWsChar c = true
      · rw [if_pos h]; exact ih2 c
      · rw [if_neg h]
        refine List.chain'_cons'.mpr ⟨?_, ih1⟩
        intro b _
        exact fun hp => h hp.1
    · intro w
      simp only [colGo]
      by_cases h : isWsChar c = true
      · rw [if_pos h]; exact ih3
      · rw [if_neg h]
        refine List.chain'_cons'.mpr ⟨?_, List.chain'_cons'.mpr ⟨?_, ih1⟩⟩
        · intro b hb
          simp only [List.head?_cons, Option.mem_def, Option.some.injEq] at hb
          subst hb
          exact fun hp => h hp.2
        · intro b _
          exact fun hp => h hp.1
    · simp only [colGo]
      by_cases h : isWsChar c = true
      · rw [if_pos h]; exact ih3
      · rw [if_neg h]
        refine List.chain'_cons'.mpr ⟨?_, List.chain'_cons'.mpr ⟨?_, ih1⟩⟩
        · intro b hb
          simp only [List.head?_cons, Option.mem_def, Option.some.injEq] at hb
          subst hb
          exact fun hp => h hp.2
        · intro b _
          exact fun hp => h hp.1

theorem colGo_eq_self {l : List Char} (h : List.Chain' noWsPair l) :
    colGo none false l = l := by
  induction l with
  | nil => rfl
  | cons c cs ih =>
    cases cs with
    | nil =>
      by_cases hc : isWsChar c = true <;> simp [colGo, hc]
    | cons d t =>
      have hcd : noWsPair c d := (List.chain'_cons.mp h).1
      have htail : List.Chain' noWsPair (d :: t) := (List.chain'_cons.mp h).2
      have ht' := ih htail
      have hstep : colGo none false (c :: d :: t) =
          if isWsChar c = true then colGo (some c) false (d :: t)
          else c :: colGo none false (d :: t) := rfl
      by_cases hc : isWsChar c = true
      · have hd : ¬ isWsChar d = true := fun hx => hcd ⟨hc, hx⟩
        have h2 : colGo (some c) false (d :: t) = c :: d :: colGo none false t := by
          show (if isWsChar d = true then colGo none true t
            else c :: d :: colGo none false t) = _
          rw [if_neg hd]
        have h3 : colGo none false (d :: t) = d :: colGo none false t := by
          show (if isWsChar d = true then colGo (some d) false t
            else d :: colGo none false t) = _
          rw [if_neg hd]
        have htt : colGo none false t = t := by
          have hx := ht'
          rw [h3, List.cons.injEq] at hx
          exact hx.2
        rw [hstep, if_pos hc, h2, htt]
      · rw [hstep, if_neg hc, ht']

theorem stripL_eq_rdropWhile (l : List Char) :
    stripL l = List.rdropWhile isWsChar (List.dropWhile isWsChar l) := rfl

theorem chain'_stripL {l : List Char} (h : List.Chain' noWsPair l) :
    List.Chain' noWsPair (stripL l) := by
  rw [stripL_eq_rdropWhile]
  have hpre := List.rdropWhile_prefix isWsChar (List.dropWhile isWsChar l)
  exact List.Chain'.prefix (h.suffix (List.dropWhile_suffix _)) hpre

theorem dropWhile_stripL (l : List Char) :
    List.dropWhile isWsChar (stripL l) = stripL l := by
  rw [stripL_eq_rdropWhile]
  rw [List.dropWhile_eq_self_iff]
  intro hl
  obtain ⟨t, ht⟩ :=
    List.rdropWhile_prefix isWsChar (List.dropWhile isWsChar l)
  have hself : List.dropWhile isWsChar (List.dropWhile isWsChar l) =
      List.dropWhile isWsChar l :=
    List.dropWhile_idempotent isWsChar l
  have hhead := List.dropWhile_eq_self_iff.mp hself
  have hlu : 0 < (List.dropWhile isWsChar l).length := by
    rw [← ht, List.length_append]
    omega
  have hne := hhead hlu
  have hgeq : (List.dropWhile isWsChar l).get ⟨0, hlu⟩ =
      (List.rdropWhile isWsChar (List.dropWhile isWsChar l) ++ t).get
        ⟨0, by rw [ht]; exact hlu⟩ :=
    List.get_of_eq ht.symm ⟨0, hlu⟩
  rw [List.get_append 0 hl] at hgeq
  intro hcontra
  apply hne
  rw [hgeq]
  exact hcontra

theorem stripL_stripL (l : List Char) : stripL (stripL l) = stripL l := by
  conv_lhs => rw [stripL_eq_rdropWhile (stripL l)]
  rw [dropWhile_stripL, stripL_eq_rdropWhile, List.rdropWhile_idempotent]

/-! ### Context-assembler facts -/

/-- `build_context` accumulates texts and indices in lockstep. -/
theorem buildGo_lengths {df : PDataFrame} {cols : List String} {m : Nat} :
    ∀ {l : List Int} {ps : List String} {vs : List Int},
      buildGo df cols m l = some (ps, vs) → ps.length = vs.length := by
  intro l
  induction l with
  | nil =>
    intro ps vs h
    simp only [buildGo, Option.some.injEq, Prod.mk.injEq] at h
    obtain ⟨h1, h2⟩ := h
    subst h1
    subst h2
    rfl
  | cons i rest ih =>
    intro ps vs h
    simp only [buildGo] at h
    split at h
    · exact ih h
    · split at h
      · exact absurd h (by simp)
      · split at h
        · exact absurd h (by simp)
        · split at h
          · simp only [Option.some.injEq, Prod.mk.injEq] at h
            rw [← h.1, ← h.2]
            exact ih (by assumption)
          · simp only [Option.some.injEq, Prod.mk.injEq] at h
            rw [← h.1, ← h.2]
            simp only [List.length_cons]
            rw [ih (by assumption)]

/-- When every retrieval index is at least the sentinel `-1` (as the
similarity index guarantees), the assembler loop is the `filterMap` of
`acceptedTextAt` paired with the `filter` of its definedness: no exception
is raised, the accepted texts appear in retrieval order, and the recorded
indices are exactly the accepted ones. -/
theorem buildGo_spec (df : PDataFrame) (cols : List String) (m : Nat) :
    ∀ l : List Int, (∀ i ∈ l, -1 ≤ i) →
      buildGo df cols m l =
        some (l.filterMap (acceptedTextAt df cols m),
              l.filter (fun i => (acceptedTextAt df cols m i).isSome)) := by
  intro l
  induction l with
  | nil => intro _; simp [buildGo]
  | cons i rest ih =>
    intro hall
    have hi : -1 ≤ i := hall i (List.mem_cons_self _ _)
    have hrest := ih fun j hj => hall j (List.mem_cons_of_mem _ hj)
    by_cases hskip : i = -1 ∨ (df.rows.length : Int) ≤ i
    · have hacc : acceptedTextAt df cols m i = none := by
        simp only [acceptedTextAt, if_pos hskip]
      simp only [buildGo, if_pos hskip, hrest, List.filterMap_cons, hacc,
        List.filter_cons, Option.isSome_none, Bool.false_eq_true, if_false]
    · have hne : ¬ i = -1 := fun h => hskip (Or.inl h)
      have hlt : ¬ (df.rows.length : Int) ≤ i := fun h => hskip (Or.inr h)
      have h0 : 0 ≤ i := by omega
      have hlt' : i.toNat < df.rows.length := by omega
      have hrow : ilocGet df.rows i = some (df.rows.get ⟨i.toNat, hlt'⟩) := by
        simp only [ilocGet, if_pos h0]
        exact List.get?_eq_get hlt'
      have hval : acceptedTextAt df cols m i =
          if rejectText m (_clean_text (selectText df cols (df.rows.get ⟨i.toNat, hlt'⟩))) = true
          then none
          else some (_clean_text (selectText df cols (df.rows.get ⟨i.toNat, hlt'⟩))) := by
        simp only [acceptedTextAt, if_neg hskip, hrow]
      by_cases hrej :
          rejectText m (_clean_text (selectText df cols (df.rows.get ⟨i.toNat, hlt'⟩))) = true
      · have hacc : acceptedTextAt df cols m i = none := by rw [hval, if_pos hrej]
        have lhs : buildGo df cols m (i :: rest) =
            some (List.filterMap (acceptedTextAt df cols m) rest,
                  List.filter (fun j => (acceptedTextAt df cols m j).isSome) rest) := by
          simp only [buildGo, if_neg hskip, hrow, hrest, if_pos hrej]
        rw [lhs, List.filterMap_cons, hacc, List.filter_cons, hacc]
        simp
      · have hacc : acceptedTextAt df cols m i =
            some (_clean_text (selectText df cols (df.rows.get ⟨i.toNat, hlt'⟩))) := by
          rw [hval, if_neg hrej]
        have lhs : buildGo df cols m (i :: rest) =
            some (_clean_text (selectText df cols (df.rows.get ⟨i.toNat, hlt'⟩)) ::
                    List.filterMap (acceptedTextAt df cols m) rest,
                  i :: List.filter (fun j => (acceptedTextAt df cols m j).isSome) rest) := by
          simp only [buildGo, if_neg hskip, hrow, hrest, if_neg hrej]
        rw [lhs, List.filterMap_cons, hacc, List.filter_cons, hacc]
        simp

theorem filterMap_filter_of_none {α β : Type} (f : α → Option β) (p : α → Bool)
    (hf : ∀ a, p a = false → f a = none) :
    ∀ l : List α, (l.filter p).filterMap f = l.filterMap f := by
  intro l
  induction l with
  | nil => rfl
  | cons a t ih =>
    cases hp : p a with
    | true => simp [List.filter_cons, hp, List.filterMap_cons, ih]
    | false => simp [List.filter_cons, hp, List.filterMap_cons, hf a hp, ih]

theorem filter_filter_of_imp {α : Type} (p q : α → Bool)
    (hpq : ∀ a, p a = true → q a = true) :
    ∀ l : List α, (l.filter q).filter p = l.filter p := by
  intro l
  induction l with
  | nil => rfl
  | cons a t ih =>
    cases hq : q a with
    | true => simp [List.filter_cons, hq, ih]
    | false =>
      have hp : p a = false := by
        cases hx : p a with
        | true => exact absurd (hpq a hx) (by simp [hq])
        | false => rfl
      simp [List.filter_cons, hq, hp, ih]

/-! ### Dataframe-update facts -/

theorem rowGet_setRowCell_self (r : Row) (c : String) (v : Cell) :
    rowGet (setRowCell r c v) c = v := by
  induction r with
  | nil => simp [setRowCell, rowGet]
  | cons p t ih =>
    obtain ⟨k, w⟩ := p
    by_cases h : k = c
    · simp [setRowCell, h, rowGet]
    · simp [setRowCell, h, rowGet, ih]

theorem rowGet_setRowCell_ne (r : Row) {c cx : String} (v : Cell) (h : cx ≠ c) :
    rowGet (setRowCell r c v) cx = rowGet r cx := by
  induction r with
  | nil =>
    simp only [setRowCell, rowGet]
    rw [if_neg fun hx => h hx.symm]
  | cons p t ih =>
    obtain ⟨k, w⟩ := p
    by_cases hk : k = c
    · subst hk
      simp only [setRowCell, if_pos rfl, rowGet]
      rw [if_neg fun hx => h hx.symm, if_neg fun hx => h hx.symm]
    · by_cases hk' : k = cx
      · subst hk'
        simp [setRowCell, hk, rowGet]
      · simp [setRowCell, hk, rowGet, hk', ih]

theorem map_zipWith_setRowCell_self (c : String) :
    ∀ (rows : List Row) (vals : List Cell), vals.length = rows.length →
      (List.zipWith (fun row v => setRowCell row c v) rows vals).map
          (fun row => rowGet row c) = vals := by
  intro rows
  induction rows with
  | nil =>
    intro vals hlen
    rw [List.length_nil, List.length_eq_zero] at hlen
    subst hlen
    rfl
  | cons r t ih =>
    intro vals hlen
    cases vals with
    | nil => simp at hlen
    | cons v vt =>
      simp only [List.zipWith_cons_cons, List.map_cons, rowGet_setRowCell_self]
      rw [ih vt (by simpa using hlen)]

theorem map_zipWith_setRowCell_ne {c cx : String} (h : cx ≠ c) :
    ∀ (rows : List Row) (vals : List Cell), vals.length = rows.length →
      (List.zipWith (fun row v => setRowCell row c v) rows vals).map
          (fun row => rowGet row cx) = rows.map (fun row => rowGet row cx) := by
  intro rows
  induction rows with
  | nil => intro vals _; rfl
  | cons r t ih =>
    intro vals hlen
    cases vals with
    | nil => simp at hlen
    | cons v vt =>
      simp only [List.zipWith_cons_cons, List.map_cons, rowGet_setRowCell_ne r v h]
      rw [ih vt (by simpa using hlen)]

theorem getColumn_setColumn_self (df : PDataFrame) (c : String) (vals : List Cell)
    (hlen : vals.length = df.rows.length) :
    getColumn (setColumn df c vals) c = vals := by
  simp only [getColumn, setColumn]
  exact map_zipWith_setRowCell_self c df.rows vals hlen

theorem getColumn_setColumn_ne (df : PDataFrame) {c cx : String} (vals : List Cell)
    (h : cx ≠ c) (hlen : vals.length = df.rows.length) :
    getColumn (setColumn df c vals) cx = getColumn df cx := by
  simp only [getColumn, setColumn]
  exact map_zipWith_setRowCell_ne h df.rows vals hlen

theorem setColumn_rows_length (df : PDataFrame) (c : String) (vals : List Cell)
    (hlen : vals.length = df.rows.length) :
    (setColumn df c vals).rows.length = df.rows.length := by
  simp [setColumn, List.length_zipWith, hlen]

/-! ### Remaining helper lemmas -/

theorem collapseWsL_eq_self {l : List Char} (h : List.Chain' noWsPair l) :
    collapseWsL l = l :=
  colGo_eq_self h

theorem intercalate_singleton (t : String) : String.intercalate " " [t] = t := by
  simp [String.intercalate, String.intercalate.go]

/-- The rejection test of `build_context`, re-expressed in the words of the
specification: the cleaned text is empty, or consists only of non-letters, or
has fewer alphabetic characters than the threshold. -/
theorem rejectText_eq_claim (m : Nat) (t : String) :
    rejectText m t =
      (t.data.isEmpty || t.data.all (fun c => !isAsciiAlpha c) ||
        decide (countAlpha t < m)) := by
  unfold rejectText fullmatchNonAlpha
  have hall : t.data.all (fun c => isAsciiDigit c || !isWordChar c || c == '_') =
      t.data.all (fun c => !isAsciiAlpha c) :=
    congrArg t.data.all (funext nonAlpha_class_eq)
  rw [hall]
  cases he : t.data.isEmpty <;> simp [he]

/-! ## The claims -/

/-- Claim C1, amended: the guarantee holds for every positive
minimum-context-length threshold (the CLI default is 100, but the flag is not
validated, so a non-positive value escapes it — see the counterexample).  If
context assembly succeeds with an empty contributing-indices list (zero
candidates retrieved, or every candidate skipped or rejected), the length
fallback returns the fixed fallback sentence, which is non-empty. -/
theorem fallback_of_no_contributors (df : PDataFrame) (indices : List Int) (m : Nat)
    (cols : List String) (min_length : Int) (ctx : String) (vs : List Int)
    (hmin : 1 ≤ min_length)
    (hres : build_context df indices m cols = some (ctx, vs))
    (hempty : vs = []) :
    fallback_context ctx min_length = fallbackSentence ∧
      fallback_context ctx min_length ≠ "" := by
  obtain ⟨pv, hpv, hmap⟩ := Option.map_eq_some'.mp hres
  obtain ⟨ps, vsl⟩ := pv
  simp only [Prod.mk.injEq] at hmap
  obtain ⟨hctx, hvs⟩ := hmap
  subst hempty
  have hlen := buildGo_lengths hpv
  have hps : ps = [] := by
    apply List.length_eq_zero.mp
    rw [hlen, hvs]
    rfl
  subst hps
  have hctx' : ctx = "" := by rw [← hctx]; rfl
  subst hctx'
  have hfb : fallback_context "" min_length = fallbackSentence := by
    unfold fallback_context
    rw [if_neg]
    intro hle
    have h0 : ((⟨stripL ("" : String).data⟩ : String).length : Int) = 0 := rfl
    rw [h0] at hle
    omega
  exact ⟨hfb, by rw [hfb]; decide⟩

/-- Witness for claim C1 at a concrete input: an empty retrieval with
threshold 1 falls back to the non-empty fixed sentence. -/
theorem fallback_of_no_contributors_witness :
    fallback_context "" 1 = fallbackSentence ∧ fallback_context "" 1 ≠ "" :=
  fallback_of_no_contributors oneRowFrame [] 10 ["Cleaned_Text"] 1 "" []
    (by decide) (by decide) rfl

/-- Counterexample to claim C1 as stated: with the threshold configuration
`min_length = 0` (expressible through the unvalidated CLI flag), zero
retrieved candidates yield the empty string as final context, not the
fallback sentence. -/
theorem fallback_min_length_zero_empty :
    build_context oneRowFrame [] 10 ["Cleaned_Text"] = some ("", []) ∧
      fallback_context "" 0 = "" ∧ ¬ fallback_context "" 0 = fallbackSentence :=
  ⟨by decide, by decide, by decide⟩

/-- Claim C2, amended: the heading-label rewriting of `rewrite_text` is
case-SENSITIVE (`str.replace` with literal needles, no `re.IGNORECASE`):
`"Issue: camera down"` is rewritten, but the casings `"issue:"` and
`"ISSUE:"` are left unchanged. -/
theorem heading_rewrite_case_sensitive :
    rewrite_text (some "Issue: camera down") = "The issue is camera down" ∧
      rewrite_text (some "issue: camera down") = "issue: camera down" ∧
      rewrite_text (some "ISSUE: camera down") = "ISSUE: camera down" :=
  ⟨by decide, by decide, by decide⟩

/-- Counterexample to claim C2 as stated: the lower-case label is not
rewritten, so the output does not begin with the natural-language
lead-in. -/
theorem heading_rewrite_lowercase_unchanged :
    rewrite_text (some "issue: camera down") ≠ "The issue is camera down" ∧
      lpre "The issue is".data (rewrite_text (some "issue: camera down")).data = false :=
  ⟨by decide, by decide⟩

/-- Claim C3, amended: the per-candidate cleaning of the Context Assembler
(`_clean_text`) is NOT the full Text Normalizer; it coincides with only the
symbol-run-replacement and whitespace-collapse-and-trim steps of
`rewrite_text`. -/
theorem clean_text_is_normalizer_tail_steps (s : String) :
    _clean_text s = collapseAndStrip (replaceSymbolRuns s) := rfl

/-- Counterexample to claim C3 as stated: on `"Issue: camera down"` the
assembler's cleaning and the full normalizer disagree (the normalizer
rewrites the heading label, `_clean_text` does not). -/
theorem clean_text_ne_rewrite_text :
    _clean_text "Issue: camera down" ≠ rewrite_text (some "Issue: camera down") := by
  decide

/-- Claim C4: label rewriting is longest-match-first.  The replacement loop
rewrites an occurrence of `"Proposed Resolution:"` (followed by any colon-free
tail) using the long label, never the embedded `"Resolution:"`, and the full
normalizer maps `"Proposed Resolution: replace unit"` to
`"The proposed resolution is replace unit"`. -/
theorem proposed_resolution_longest_match :
    (∀ b : List Char, (∀ c ∈ b, c ≠ ':') →
      applyReplacementsL ("Proposed Resolution:".data ++ b) =
        "The proposed resolution is".data ++ b) ∧
    rewrite_text (some "Proposed Resolution: replace unit") =
      "The proposed resolution is replace unit" :=
  ⟨applyReplacements_proposed, by decide⟩

/-- Witness for claim C4 at the spec's concrete tail. -/
theorem proposed_resolution_longest_match_witness :
    applyReplacementsL ("Proposed Resolution:".data ++ " replace unit".data) =
      "The proposed resolution is".data ++ " replace unit".data :=
  proposed_resolution_longest_match.1 " replace unit".data (by decide)

/-- Claim C5, amended: the final whitespace-collapse-and-trim step of the
normalizer is idempotent, but the full `rewrite_text` is NOT idempotent
(whitespace collapsing can reveal a boilerplate phrase, and HTML-tag
stripping can reveal a markdown link, which only a second application
removes — see the counterexample). -/
theorem collapse_and_strip_idempotent (s : String) :
    collapseAndStrip (collapseAndStrip s) = collapseAndStrip s := by
  show String.mk (stripL (collapseWsL (stripL (collapseWsL s.data)))) =
    String.mk (stripL (collapseWsL s.data))
  have hy : List.Chain' noWsPair (collapseWsL s.data) := (colGo_chain s.data).1
  rw [collapseWsL_eq_self (chain'_stripL hy), stripL_stripL]

/-- Counterexample to claim C5 as stated: collapsing the double space of
`"thank  you x"` creates the phrase `"thank you"`, which the boilerplate
pass of a second application removes entirely. -/
theorem rewrite_text_not_idempotent :
    rewrite_text (some (rewrite_text (some "thank  you x"))) ≠
      rewrite_text (some "thank  you x") := by
  decide

/-- Claim C6: for a valid row position, the candidate contributes its cleaned
text and its index exactly when the cleaned text is non-empty, contains a
letter, and has at least `min_alpha_chars` alphabetic characters; otherwise
it contributes nothing. -/
theorem candidate_rejection_iff (df : PDataFrame) (cols : List String) (m : Nat)
    (i : Int) (h0 : 0 ≤ i) (h1 : i < (df.rows.length : Int)) :
    ∃ row, ilocGet df.rows i = some row ∧
      build_context df [i] m cols =
        some (if (_clean_text (selectText df cols row)).data.isEmpty
                || (_clean_text (selectText df cols row)).data.all (fun c => !isAsciiAlpha c)
                || decide (countAlpha (_clean_text (selectText df cols row)) < m)
              then ("", [])
              else (_clean_text (selectText df cols row), [i])) := by
  have hlt' : i.toNat < df.rows.length := by omega
  have hrow : ilocGet df.rows i = some (df.rows.get ⟨i.toNat, hlt'⟩) := by
    simp only [ilocGet, if_pos h0]
    exact List.get?_eq_get hlt'
  refine ⟨df.rows.get ⟨i.toNat, hlt'⟩, hrow, ?_⟩
  have hskip : ¬(i = -1 ∨ (df.rows.length : Int) ≤ i) := by
    intro h
    rcases h with h | h <;> omega
  have hre := rejectText_eq_claim m (_clean_text (selectText df cols (df.rows.get ⟨i.toNat, hlt'⟩)))
  by_cases hc : rejectText m (_clean_text (selectText df cols (df.rows.get ⟨i.toNat, hlt'⟩))) = true
  · have hcond := hre ▸ hc
    simp only [build_context, buildGo, if_neg hskip, hrow, if_pos hc, Option.map_some']
    rw [if_pos hcond]
    rfl
  · have hcond : ((_clean_text (selectText df cols (df.rows.get ⟨i.toNat, hlt'⟩))).data.isEmpty
        || (_clean_text (selectText df cols (df.rows.get ⟨i.toNat, hlt'⟩))).data.all
            (fun c => !isAsciiAlpha c)
        || decide (countAlpha (_clean_text (selectText df cols (df.rows.get ⟨i.toNat, hlt'⟩))) < m))
        = false := by
      rw [← hre]
      cases hx : rejectText m (_clean_text (selectText df cols (df.rows.get ⟨i.toNat, hlt'⟩))) with
      | true => exact absurd hx hc
      | false => rfl
    simp only [build_context, buildGo, if_neg hskip, hrow, if_neg hc, Option.map_some']
    rw [if_neg (by rw [hcond]; exact Bool.false_ne_true)]
    rw [intercalate_singleton]

/-- Witness for claim C6: with `min_alpha_chars = 10`, a cleaned text with
exactly five alphabetic characters is rejected and contributes nothing. -/
theorem candidate_rejection_iff_witness :
    build_context fiveAlphaFrame [0] 10 ["Cleaned_Text"] = some ("", []) := by
  obtain ⟨row, hrow, hb⟩ :=
    candidate_rejection_iff fiveAlphaFrame ["Cleaned_Text"] 10 0 (by decide) (by decide)
  have h2 : ilocGet fiveAlphaFrame.rows 0 =
      some [("Cleaned_Text", some "ab cd e 12 34!")] := by decide
  have hr0 : row = [("Cleaned_Text", some "ab cd e 12 34!")] :=
    Option.some.inj (hrow.symm.trans h2)
  subst hr0
  rw [hb]
  decide

/-- Claim C7, amended: the guard only recognises the exact sentinel `-1` and
positions at or beyond the table length.  For retrieval indices that are all
at least `-1` (which the similarity index guarantees), every sentinel or
out-of-bounds index is skipped entirely: assembly succeeds, the result is the
same as if the skipped indices were absent, and no skipped index is among the
contributing indices.  Indices below `-1` are NOT skipped (see the
counterexample): they reach `df.iloc`, which resolves them from the end of
the table or raises. -/
theorem sentinel_and_oob_indices_skipped (df : PDataFrame) (cols : List String)
    (m : Nat) (indices : List Int) (h : ∀ i ∈ indices, -1 ≤ i) :
    (build_context df indices m cols).isSome = true ∧
      build_context df indices m cols =
        build_context df (indices.filter (keptIndex df)) m cols ∧
      ∀ ctx vs, build_context df indices m cols = some (ctx, vs) →
        ∀ i ∈ indices, (i = -1 ∨ (df.rows.length : Int) ≤ i) → i ∉ vs := by
  have hspec := buildGo_spec df cols m indices h
  have hkept : ∀ j ∈ indices.filter (keptIndex df), -1 ≤ j :=
    fun j hj => h j (List.mem_of_mem_filter hj)
  have hspec2 := buildGo_spec df cols m (indices.filter (keptIndex df)) hkept
  have hnone : ∀ j, keptIndex df j = false → acceptedTextAt df cols m j = none := by
    intro j hj
    have hbad : j = -1 ∨ (df.rows.length : Int) ≤ j := by
      simp only [keptIndex, decide_eq_false_iff_not, not_not] at hj
      exact hj
    simp [acceptedTextAt, hbad]
  have himp : ∀ j, (fun i => (acceptedTextAt df cols m i).isSome) j = true →
      keptIndex df j = true := by
    intro j hj
    have hj' : (acceptedTextAt df cols m j).isSome = true := hj
    cases hk : keptIndex df j with
    | true => rfl
    | false =>
      rw [hnone j hk] at hj'
      simp at hj'
  refine ⟨?_, ?_, ?_⟩
  · simp [build_context, hspec]
  · simp only [build_context, hspec, hspec2]
    rw [filterMap_filter_of_none _ _ hnone indices,
      filter_filter_of_imp _ _ himp indices]
  · intro ctx vs hres i hmem hbad
    have hvs : vs = indices.filter (fun i => (acceptedTextAt df cols m i).isSome) := by
      rw [build_context, hspec] at hres
      simp only [Option.map_some', Option.some.injEq, Prod.mk.injEq] at hres
      exact hres.2.symm
    rw [hvs]
    intro hin
    have hsome : (acceptedTextAt df cols m i).isSome = true := (List.mem_filter.mp hin).2
    have hna : acceptedTextAt df cols m i = none := by simp [acceptedTextAt, hbad]
    rw [hna] at hsome
    simp at hsome

/-- Witness for claim C7: among indices `[-1, 0, 5]` against a two-row
table, the sentinel `-1` and the out-of-bounds `5` are skipped and only row 0
contributes. -/
theorem sentinel_and_oob_indices_skipped_witness :
    (build_context twoRowFrame [-1, 0, 5] 1 ["Cleaned_Text"]).isSome = true ∧
      build_context twoRowFrame [-1, 0, 5] 1 ["Cleaned_Text"] =
        build_context twoRowFrame ([-1, 0, 5].filter (keptIndex twoRowFrame)) 1
          ["Cleaned_Text"] ∧
      ∀ ctx vs, build_context twoRowFrame [-1, 0, 5] 1 ["Cleaned_Text"] = some (ctx, vs) →
        ∀ i ∈ ([-1, 0, 5] : List Int),
          (i = -1 ∨ (twoRowFrame.rows.length : Int) ≤ i) → i ∉ vs :=
  sentinel_and_oob_indices_skipped twoRowFrame ["Cleaned_Text"] 1 [-1, 0, 5] (by decide)

/-- Counterexample to claim C7 as stated: the index `-2` is not a valid row
position, yet it is not skipped — against a two-row table it contributes the
second-to-last row's text and the index `-2` itself, and against a one-row
table it makes assembly fault (`IndexError` from `df.iloc`). -/
theorem negative_index_not_skipped :
    build_context twoRowFrame [-2] 1 ["Cleaned_Text"] =
      some ("first row text words", [-2]) ∧
      build_context oneRowFrame [-2] 1 ["Cleaned_Text"] = none :=
  ⟨by decide, by decide⟩

/-- Claim C8: for retrieval indices at least `-1`, the assembled context is
the cleaned texts of the accepted candidates joined with single spaces in
retrieval order, and the contributing indices are exactly the accepted
indices in that order. -/
theorem context_join_order (df : PDataFrame) (cols : List String) (m : Nat)
    (indices : List Int) (h : ∀ i ∈ indices, -1 ≤ i) :
    build_context df indices m cols =
      some (String.intercalate " " (indices.filterMap (acceptedTextAt df cols m)),
            indices.filter (fun i => (acceptedTextAt df cols m i).isSome)) := by
  simp [build_context, buildGo_spec df cols m indices h]

/-- Witness for claim C8 at the spec's example: retrieving rows 0 and 2,
where row 0 holds valid text and row 2 holds `"N/A"`, yields row 0's
normalized text with contributing indices `[0]`. -/
theorem context_join_order_witness :
    build_context exampleFrame [0, 2] 10 ["Cleaned_Text"] =
      some ("Camera failure at store 12 due to power loss", [0]) := by
  rw [context_join_order exampleFrame ["Cleaned_Text"] 10 [0, 2] (by decide)]
  decide

/-- Claim C9: `rewrite_text` always returns a string (its result type), and
both the null input and the empty-string input yield the empty string. -/
theorem rewrite_text_total_on_empty_and_null :
    rewrite_text none = "" ∧ rewrite_text (some "") = "" :=
  ⟨rfl, by decide⟩

/-- Claim C10: `rewrite_dataframe` keeps the number of rows, changes no
column other than the target (the source column under `overwrite_source`,
else `output_column`), and fills the target with `rewrite_text` applied
elementwise to the source column (a `NaN` cell passing through `str` as
`"nan"`). -/
theorem rewrite_dataframe_frame_effect (df : PDataFrame) (source output : String)
    (ow : Bool) (hs : source ∈ df.cols) :
    ∃ df', rewrite_dataframe df source output ow = some df' ∧
      df'.rows.length = df.rows.length ∧
      (∀ c, c ≠ (if ow then source else output) → getColumn df' c = getColumn df c) ∧
      getColumn df' (if ow then source else output) =
        (getColumn df source).map (fun cell => some (applyRewriteCell cell)) := by
  have hlen : ((getColumn df source).map (fun cell => some (applyRewriteCell cell))).length
      = df.rows.length := by
    simp [getColumn]
  cases ow with
  | true =>
    refine ⟨setColumn df source ((getColumn df source).map
        (fun cell => some (applyRewriteCell cell))), ?_, ?_, ?_, ?_⟩
    · simp [rewrite_dataframe, hs]
    · exact setColumn_rows_length df source _ hlen
    · intro c hc
      simp only [if_pos rfl] at hc
      exact getColumn_setColumn_ne df _ hc hlen
    · simp only [if_pos rfl]
      exact getColumn_setColumn_self df source _ hlen
  | false =>
    refine ⟨setColumn df output ((getColumn df source).map
        (fun cell => some (applyRewriteCell cell))), ?_, ?_, ?_, ?_⟩
    · simp [rewrite_dataframe, hs]
    · exact setColumn_rows_length df output _ hlen
    · intro c hc
      simp only [Bool.false_eq_true, if_false] at hc
      exact getColumn_setColumn_ne df _ hc hlen
    · simp only [Bool.false_eq_true, if_false]
      exact getColumn_setColumn_self df output _ hlen

/-- Witness for claim C10 on a concrete two-column frame. -/
theorem rewrite_dataframe_frame_effect_witness :
    ∃ df', rewrite_dataframe rewriteFrame "Cleaned_Text" "Rewritten_Text" false = some df' ∧
      df'.rows.length = rewriteFrame.rows.length ∧
      (∀ c, c ≠ (if false then "Cleaned_Text" else "Rewritten_Text") →
        getColumn df' c = getColumn rewriteFrame c) ∧
      getColumn df' (if false then "Cleaned_Text" else "Rewritten_Text") =
        (getColumn rewriteFrame "Cleaned_Text").map
          (fun cell => some (applyRewriteCell cell)) :=
  rewrite_dataframe_frame_effect rewriteFrame "Cleaned_Text" "Rewritten_Text" false
    (by decide)

end RagJira
